import Mathlib

/-!
Shallow embedding of the generation pipeline of the `fastify-project-starter`
repository: the exclusion pattern matcher and recursive template copy
(`cli/src/utils/copy-template.ts`, `cli/src/utils/validation.ts`), the
template-variable substitution engine (`replace-vars` workflow), the version
resolver and manifest rewriter (`workflows/templates` version helpers), the
error classifier (`helpers/error-handling`), and the pipeline orchestrator
(`create-project.ts` with `workflows/validation`, `workflows/install`).

JavaScript strings are modelled as Lean `String`s (with `List Char` as the
character-sequence view).  Filesystem trees, the npm registry, `JSON.parse`
and `JSON.stringify` are external to the translated code and are modelled as
explicit data / oracle parameters.  All definitions are executable so that
concrete runs of the embedded code can be checked by `decide` / `rfl`.
-/

/-! ### Pattern matcher

`shouldExclude` in `cli/src/utils/validation.ts` builds JavaScript regexes
from the glob-like exclusion patterns:

* a pattern containing `**` (only evaluated when a relative path was passed)
  is compiled with `pattern.replace(/\*\*/g, ".*").replace(/\*/g, "[^/]*")`;
  the second `replace` also rewrites the `*` that the first one just
  introduced, so each `**` ends up as `.[^/]*`;
* otherwise a pattern containing `*` is compiled with
  `pattern.replace(/\*/g, ".*")` and tested against the bare entry name;
* the compiled regexes are passed to `RegExp.prototype.test`, which performs
  an unanchored search (the pattern may match anywhere in the subject).

We model the compiled regexes by token lists.  Within the repository's
patterns the only regex metacharacters occurring in the compiled source
strings are `.`, `*` (only as part of `.*` / `[^/]*`) and the character
class `[^/]`; all other characters are literals.
-/

/-- Tokens of the compiled JavaScript regexes: `anyChar` is the
metacharacter `.`, `anyStar` is `.*`, `nonSlashStar` is `[^/]*`, and
`lit c` is a literal character. -/
inductive RTok where
  | anyChar
  | anyStar
  | nonSlashStar
  | lit (c : Char)
deriving DecidableEq

/-- All ways of splitting a character list into a prefix/suffix pair. -/
def splitsOf : List Char → List (List Char × List Char)
  | [] => [([], [])]
  | c :: cs => ([], c :: cs) :: (splitsOf cs).map fun pr => (c :: pr.1, pr.2)

/-- Does some prefix of `cs` match the token list?  An empty token list
matches (a JavaScript regex match may end before the end of the subject);
a star token matches by choosing any admissible split of the remaining
characters, which is exactly the set of alternatives a backtracking
matcher explores. -/
def matchHere : List RTok → List Char → Bool
  | [], _ => true
  | .anyChar :: _, [] => false
  | .anyChar :: ts, _ :: cs => matchHere ts cs
  | .lit _ :: _, [] => false
  | .lit a :: ts, c :: cs => a == c && matchHere ts cs
  | .anyStar :: ts, cs => (splitsOf cs).any fun pr => matchHere ts pr.2
  | .nonSlashStar :: ts, cs =>
      (splitsOf cs).any fun pr => pr.1.all (fun c => c != '/') && matchHere ts pr.2

/-- The source's `RegExp.prototype.test`: unanchored search, i.e. the tokens may match
starting at any position of the subject. -/
def rtest (ts : List RTok) : List Char → Bool
  | [] => matchHere ts []
  | c :: cs => matchHere ts (c :: cs) || rtest ts cs

/-- Compilation of `pattern.replace(/\*\*/g, ".*").replace(/\*/g, "[^/]*")`
(the `**` branch of `shouldExclude` in `cli/src/utils/validation.ts`).
The first replacement turns each `**` into `.*`; the second then rewrites
every remaining `*` — including the one just introduced — into `[^/]*`,
so `**` compiles to `.[^/]*` and a lone `*` to `[^/]*`.  A `.` of the
pattern stays the any-character metacharacter; other characters are
literals. -/
def compileNested : List Char → List RTok
  | '*' :: '*' :: rest => .anyChar :: .nonSlashStar :: compileNested rest
  | '*' :: rest => .nonSlashStar :: compileNested rest
  | '.' :: rest => .anyChar :: compileNested rest
  | c :: rest => .lit c :: compileNested rest
  | [] => []

/-- Compilation of `pattern.replace(/\*/g, ".*")` (the single-`*` branch of
`shouldExclude`, identical in `copy-template.ts` and `validation.ts`):
each `*` becomes `.*`, `.` is the any-character metacharacter, other
characters are literals. -/
def compileSingle : List Char → List RTok
  | '*' :: rest => .anyStar :: compileSingle rest
  | '.' :: rest => .anyChar :: compileSingle rest
  | c :: rest => .lit c :: compileSingle rest
  | [] => []

/-- The source's `pattern.includes("**")`. -/
def hasDoubleStar : List Char → Bool
  | '*' :: '*' :: _ => true
  | _ :: rest => hasDoubleStar rest
  | [] => false

/-- The source's `pattern.endsWith("/")`, character-level so that it evaluates in the
kernel. -/
def endsWithSlash (s : String) : Bool :=
  match s.data.getLast? with
  | some c => c == '/'
  | none => false

/-- The source's `pattern.slice(0, -1)`. -/
def dropLastChar (s : String) : String :=
  ⟨s.data.dropLast⟩

/-- One pattern's contribution to `shouldExclude(filename, fullPath?)` from
`cli/src/utils/validation.ts` (lines 378-401): a `**` pattern is tested
against `fullPath` when present and never matches otherwise; a `*` pattern
is tested against the bare entry name; a pattern ending in `/` matches the
entry name with the slash stripped; anything else is exact equality. -/
def patternExcludes (pattern : String) (filename : String) (fullPath : Option String) : Bool :=
  if hasDoubleStar pattern.data then
    match fullPath with
    | some fp => rtest (compileNested pattern.data) fp.data
    | none => false
  else if pattern.data.contains '*' then
    rtest (compileSingle pattern.data) filename.data
  else if endsWithSlash pattern then
    filename == dropLastChar pattern
  else
    filename == pattern

/-- The source's `shouldExclude` from `cli/src/utils/validation.ts`, parameterised by the
pattern set (`EXCLUDE_PATTERNS.some(...)`). -/
def shouldExclude (patterns : List String) (filename : String) (fullPath : Option String) : Bool :=
  patterns.any fun pattern => patternExcludes pattern filename fullPath

/-- The source's `shouldExclude` from `cli/src/utils/copy-template.ts` (lines 21-33):
no `**` branch and no relative-path argument; any pattern containing `*`
takes the single-star branch. -/
def shouldExcludeBare (patterns : List String) (filename : String) : Bool :=
  patterns.any fun pattern =>
    if pattern.data.contains '*' then
      rtest (compileSingle pattern.data) filename.data
    else if endsWithSlash pattern then
      filename == dropLastChar pattern
    else
      filename == pattern

/-- The `EXCLUDE_PATTERNS` list of `cli/src/utils/validation.ts`. -/
def EXCLUDE_PATTERNS : List String :=
  ["node_modules", ".git", "cli", "scripts", ".turbo", "dist", "build",
   ".next", ".react-router", "*.log", ".DS_Store", "*.db",
   ".github", "CONTRIBUTING.md", "DEVELOPMENT.md",
   ".env", ".env.local",
   "**/Dockerfile", "**/.dockerignore"]

/-- Modelled from the spec: a matcher that must consume the whole subject,
i.e. the compiled pattern anchored at both ends, used to compare the
code's unanchored behaviour with the spec's claimed one. -/
def matchExact : List RTok → List Char → Bool
  | [], cs => cs.isEmpty
  | .anyChar :: _, [] => false
  | .anyChar :: ts, _ :: cs => matchExact ts cs
  | .lit _ :: _, [] => false
  | .lit a :: ts, c :: cs => a == c && matchExact ts cs
  | .anyStar :: ts, cs => (splitsOf cs).any fun pr => matchExact ts pr.2
  | .nonSlashStar :: ts, cs =>
      (splitsOf cs).any fun pr => pr.1.all (fun c => c != '/') && matchExact ts pr.2

/-- Modelled from the spec: compilation of a nested-glob pattern in which
`**` matches any sequence of path segments (any characters, slashes
included), a single `*` matches a run of non-separator characters, and
every other character is literal. -/
def compileSpecNested : List Char → List RTok
  | '*' :: '*' :: rest => .anyStar :: compileSpecNested rest
  | '*' :: rest => .nonSlashStar :: compileSpecNested rest
  | c :: rest => .lit c :: compileSpecNested rest
  | [] => []

/-- Modelled from the spec: the claimed semantics of a `**` pattern applied
to a relative path. -/
def specNestedMatch (pattern : String) (path : String) : Bool :=
  matchExact (compileSpecNested pattern.data) path.data

/-! ### Template materializer

`copyRecursive` in `cli/src/utils/validation.ts` (lines 403-430) walks the
entries of the source directory; for each entry it computes the path
relative to the copy root (`basePath ? basePath + "/" + entry : entry`),
skips the entry when `shouldExclude(entry, relativePath)` holds (skipping a
directory skips its whole subtree), recreates directories and copies files
byte-for-byte.

A directory listing is modelled by the plain inductive `Fs`: `fileE` /
`dirE` are the entries of a listing in `readdir` order, terminated by
`nilF`.  This first-child / next-sibling encoding keeps every function
structurally recursive (hence kernel-computable). -/
inductive Fs where
  | nilF
  | fileE (name : String) (content : String) (rest : Fs)
  | dirE (name : String) (children : Fs) (rest : Fs)
deriving DecidableEq

/-- The relative path of an entry: `basePath ? basePath + "/" + entry : entry`. -/
def relPathOf (basePath : Option String) (entry : String) : String :=
  match basePath with
  | some bp => bp ++ "/" ++ entry
  | none => entry

/-- The source's `copyRecursive(src, dest, basePath?)` from `cli/src/utils/validation.ts`,
as the function from the source listing to the listing it creates at the
destination: excluded entries are dropped together with their subtrees,
directory entries recurse with their relative path as the new base path,
file contents are copied unchanged (`await cp(srcPath, destPath)`). -/
def copyEntries (patterns : List String) (basePath : Option String) : Fs → Fs
  | .nilF => .nilF
  | .fileE n c rest =>
      if shouldExclude patterns n (some (relPathOf basePath n)) then
        copyEntries patterns basePath rest
      else
        .fileE n c (copyEntries patterns basePath rest)
  | .dirE n children rest =>
      let rel := relPathOf basePath n
      if shouldExclude patterns n (some rel) then
        copyEntries patterns basePath rest
      else
        .dirE n (copyEntries patterns (some rel) children) (copyEntries patterns basePath rest)

/-- View of a single resolved directory entry. -/
inductive FsEnt where
  | fileV (content : String)
  | dirV (children : Fs)
deriving DecidableEq

/-- The first entry of a listing carrying the given name, if any. -/
def findName : Fs → String → Option FsEnt
  | .nilF, _ => none
  | .fileE n c rest, p => if n == p then some (.fileV c) else findName rest p
  | .dirE n ch rest, p => if n == p then some (.dirV ch) else findName rest p

/-- Resolve a non-empty path against a listing: follow the first entry with
each segment's name; a file only resolves when it is the last segment. -/
def lookupPath : Fs → List String → Option FsEnt
  | _, [] => none
  | fs, p :: rest =>
      match findName fs p with
      | some (.fileV c) => if rest.isEmpty then some (.fileV c) else none
      | some (.dirV ch) => if rest.isEmpty then some (.dirV ch) else lookupPath ch rest
      | none => none

/-- The relative path (from base path `bp`) of the last segment of a
non-empty path, as `copyRecursive` computes it while descending. -/
def joinFrom (bp : Option String) : List String → String
  | [] => bp.getD ""
  | n :: rest => joinFrom (some (relPathOf bp n)) rest

/-- Every segment of the path is unexcluded at the relative path
`copyRecursive` would compute for it while descending from base path `bp`. -/
def pathUnexcluded (patterns : List String) (bp : Option String) : List String → Bool
  | [] => true
  | n :: rest =>
      !shouldExclude patterns n (some (relPathOf bp n)) &&
        pathUnexcluded patterns (some (relPathOf bp n)) rest

/-! ### Variable substitution engine

`generateReplacements` / `processFile` from the `replace-vars` workflow
(`src/utils/replace-vars.ts`).  `processFile` runs
`content = content.replace(new RegExp(search, "g"), replace)` for the
replacement entries in object-insertion order.  Each search string is used
as a regex in which only `.` is a metacharacter; on all strings considered
here those regexes match exactly the literal occurrences of the search
token, so the global replace is modelled as literal, left-to-right,
non-overlapping global replacement. -/

/-- Is the first list a prefix of the second? -/
def hasPrefixL : List Char → List Char → Bool
  | [], _ => true
  | _ :: _, [] => false
  | a :: as, b :: bs => a == b && hasPrefixL as bs

/-- Left-to-right non-overlapping global replacement, fuelled to stay
structurally recursive.  Every step consumes at least one character, so
fuel equal to the subject length is always sufficient and the fuel-out
branch is unreachable in `jsReplaceAll` below. -/
def replaceAllFuel (pat rep : List Char) : Nat → List Char → List Char
  | 0, s => s
  | _ + 1, [] => []
  | fuel + 1, c :: rest =>
      if hasPrefixL pat (c :: rest) && !pat.isEmpty then
        rep ++ replaceAllFuel pat rep fuel (List.drop (pat.length - 1) rest)
      else
        c :: replaceAllFuel pat rep fuel rest

/-- JavaScript `subject.replace(/search/g, rep)` for a literal search token. -/
def jsReplaceAll (subject search rep : String) : String :=
  ⟨replaceAllFuel search.data rep.data subject.data.length subject.data⟩

/-- Substring test, JavaScript `s.includes(sub)`. -/
def containsSub (sub : List Char) : List Char → Bool
  | [] => hasPrefixL sub []
  | c :: cs => hasPrefixL sub (c :: cs) || containsSub sub cs

/-- String wrapper for `containsSub`. -/
def strIncludes (s sub : String) : Bool :=
  containsSub sub.data s.data

/-- The `TEMPLATE_VARS` literals of `replace-vars.ts`. -/
def TEMPLATE_PROJECT_NAME : String := "fastify-react-router-starter"

/-- The source's `TEMPLATE_VARS.PACKAGE_SCOPE`. -/
def TEMPLATE_PACKAGE_SCOPE : String := "@fastify-react-router-starter"

/-- The source's `TEMPLATE_VARS.AUTHOR_NAME`. -/
def TEMPLATE_AUTHOR_NAME : String := "Jarod Taylor"

/-- The source's `TEMPLATE_VARS.AUTHOR_EMAIL`. -/
def TEMPLATE_AUTHOR_EMAIL : String := "jarodrtaylor@gmail.com"

/-- The source's `TEMPLATE_VARS.REPO_URL`. -/
def TEMPLATE_REPO_URL : String := "https://github.com/jarodtaylor/fastify-react-router-starter"

/-- The source's `generatePackageScope`: kebab-case name to `@scope` format. -/
def generatePackageScope (projectName : String) : String :=
  "@" ++ projectName

/-- The source's `generateReplacements(projectName, options)` (the options argument is
unused in the source).  The pairs are listed in the object-literal
insertion order, which is the order `Object.entries` yields them to
`processFile`. -/
def generateReplacements (projectName : String) : List (String × String) :=
  [(TEMPLATE_PROJECT_NAME, projectName),
   (TEMPLATE_PACKAGE_SCOPE, generatePackageScope projectName),
   (TEMPLATE_AUTHOR_NAME, "Your Name"),
   (TEMPLATE_AUTHOR_EMAIL, "your.email@example.com"),
   (TEMPLATE_REPO_URL, "https://github.com/yourusername/" ++ projectName)]

/-- The replacement loop of `processFile` applied to one file's contents. -/
def processFileContent (projectName : String) (content : String) : String :=
  (generateReplacements projectName).foldl
    (fun acc pr => jsReplaceAll acc pr.1 pr.2) content

/-! ### Version resolver

`fetchPackageVersion`, `satisfiesConstraint`, `fetchLatestVersions`,
`updatePackageVersions` from the version helper of the
`workflows/templates` module.  The network fetch of
`fetchPackageVersion` is modelled by an oracle
`registry : String → Option String`: `none` stands for every failure mode
the source maps to `null` (abort/timeout, network error, non-2xx response,
missing `version` field), `some v` for a successful lookup returning
version `v`. -/

/-- The source's `VersionInfo` as in the source. -/
structure VersionInfo where
  name : String
  current : String
  latest : String
  updated : Bool
deriving DecidableEq

/-- JavaScript `"a.b.c".split(".")`, character-level so that it evaluates
in the kernel. -/
def splitOnDotL : List Char → List (List Char)
  | [] => [[]]
  | c :: rest =>
      match splitOnDotL rest, c == '.' with
      | r, true => [] :: r
      | [], false => [[c]]
      | h :: t, false => (c :: h) :: t

/-- String wrapper for `splitOnDotL`. -/
def splitOnDot (s : String) : List String :=
  (splitOnDotL s.data).map String.mk

/-- JavaScript `Number.parseInt` restricted to the version components it is
applied to: the value of the longest digit prefix, `none` for `NaN`
(no leading digits; signs and whitespace do not occur in version
strings). -/
def jsParseInt (s : String) : Option Nat :=
  match s.data.takeWhile Char.isDigit with
  | [] => none
  | ds => some (ds.foldl (fun acc c => 10 * acc + (c.toNat - 48)) 0)

/-- The source's `constraint.replace(/[\^~]/, "")`: remove the first `^` or `~`. -/
def stripCaretTilde : List Char → List Char
  | [] => []
  | c :: rest => if c == '^' || c == '~' then rest else c :: stripCaretTilde rest

/-- The source's `satisfiesConstraint(version, constraint)`: compare the leading numeric
components.  In JavaScript a `NaN` component compares unequal, so a parse
failure on either side yields `false`. -/
def satisfiesConstraint (version constraint : String) : Bool :=
  match jsParseInt ((splitOnDot version).headD ""),
        jsParseInt ((splitOnDot (String.mk (stripCaretTilde constraint.data))).headD "") with
  | some a, some b => a == b
  | _, _ => false

/-- The `VERSION_CONSTRAINTS` table. -/
def VERSION_CONSTRAINTS : List (String × String) :=
  [("react-router", "^7.0.0"), ("fastify", "^5.0.0"), ("typescript", "^5.0.0"),
   ("vite", "^6.0.0"), ("prisma", "^6.0.0"), ("@prisma/client", "^6.0.0")]

/-- The per-package body of the concurrent map inside `fetchLatestVersions`:
`fetched` is the (modelled) result of `fetchPackageVersion`. -/
def resolveOne (fetched : Option String) (currentVersions : String → Option String)
    (packageName : String) : VersionInfo :=
  let currentVersion := (currentVersions packageName).getD "unknown"
  match fetched with
  | none => ⟨packageName, currentVersion, currentVersion, false⟩
  | some latestVersion =>
      let shouldUpdate :=
        match VERSION_CONSTRAINTS.lookup packageName with
        | some constraint => satisfiesConstraint latestVersion constraint
        | none => true
      let finalVersion := if shouldUpdate then latestVersion else currentVersion
      ⟨packageName, currentVersion, latestVersion,
       shouldUpdate && finalVersion != currentVersion⟩

/-- The source's `fetchLatestVersions(packages, currentVersions, options)`: one
independent, individually-failable lookup per package; the `Promise.all`
never rejects because every promise resolves (failures were already mapped
to `null` inside `fetchPackageVersion`), so the surrounding `try` block's
catch branch is dead code. -/
def fetchLatestVersions (registry : String → Option String)
    (packages : List String) (currentVersions : String → Option String) : List VersionInfo :=
  packages.map fun packageName => resolveOne (registry packageName) currentVersions packageName

/-- Modelled from the claim wording of C7: the dot-separated numeric
components of a version string (missing / non-numeric components count
as 0). -/
def versionParts (s : String) : List Nat :=
  (splitOnDot s).map fun p => (jsParseInt p).getD 0

/-- Modelled from the claim wording of C7: lexicographic greater-than on
component lists. -/
def partsGt : List Nat → List Nat → Bool
  | [], _ => false
  | _ :: _, [] => true
  | a :: as, b :: bs => decide (b < a) || (a == b && partsGt as bs)

/-- Modelled from the claim wording of C7: is `a` a newer version than `b`? -/
def semverNewer (a b : String) : Bool :=
  partsGt (versionParts a) (versionParts b)

/-! ### Manifest rewriting

`updatePackageVersions(packageJsonContent, versionUpdates)` parses the
manifest, rewrites the version string of every `updated` package found in
`dependencies` / `devDependencies`, and re-serialises only if something
changed; any `JSON.parse` exception is caught and the input returned
unchanged.  A parsed manifest is modelled by its two dependency tables
(association lists in key-insertion order; JavaScript object keys are
unique).  `JSON.parse` / `JSON.stringify` are runtime built-ins, modelled
as oracle parameters `parse` / `stringify`. -/

/-- The two dependency tables of a parsed `package.json`. -/
structure Manifest where
  dependencies : List (String × String)
  devDependencies : List (String × String)
deriving DecidableEq

/-- Property access `table?.[name]`: the first binding of the key (object
keys are unique, so the first binding is the binding). -/
def getDep : List (String × String) → String → Option String
  | [], _ => none
  | (k, v) :: rest, key => if k == key then some v else getDep rest key

/-- Assignment `table[name] = value` for a key known to be present:
replace the value at its first binding (object keys are unique, so the
first binding is the binding). -/
def setDep : List (String × String) → String → String → List (String × String)
  | [], _, _ => []
  | (k, v) :: rest, key, value =>
      if k == key then (k, value) :: rest else (k, v) :: setDep rest key value

/-- The source's `currentValue.match(/^[\^~]/)?.[0] || "^"`: the leading `^` or `~` of
the existing value, defaulting to `^` when the value has neither. -/
def rangeCharOf (value : String) : String :=
  match value.data with
  | '^' :: _ => "^"
  | '~' :: _ => "~"
  | _ => "^"

/-- One iteration of the `for (const update of versionUpdates)` loop:
skip non-updated results; rewrite the entry in `dependencies` and then in
`devDependencies` when the truthiness test `if (table?.[name])` passes
(an absent key or an empty-string value fails it), setting the `updated`
flag on every rewrite. -/
def updateStep (acc : Manifest × Bool) (u : VersionInfo) : Manifest × Bool :=
  if !u.updated then acc
  else
    let m := acc.1
    let depsStep :=
      match getDep m.dependencies u.name with
      | some v =>
          if v == "" then (m.dependencies, acc.2)
          else (setDep m.dependencies u.name (rangeCharOf v ++ u.latest), true)
      | none => (m.dependencies, acc.2)
    let devStep :=
      match getDep m.devDependencies u.name with
      | some v =>
          if v == "" then (m.devDependencies, depsStep.2)
          else (setDep m.devDependencies u.name (rangeCharOf v ++ u.latest), true)
      | none => (m.devDependencies, depsStep.2)
    (⟨depsStep.1, devStep.1⟩, devStep.2)

/-- The loop of `updatePackageVersions` over a parsed manifest, returning
the rewritten manifest and the `updated` flag. -/
def applyVersionUpdates (m : Manifest) (versionUpdates : List VersionInfo) : Manifest × Bool :=
  versionUpdates.foldl updateStep (m, false)

/-- The source's `updatePackageVersions(packageJsonContent, versionUpdates)`:
`parse` models `JSON.parse` (`none` = exception, caught by the source's
`try`/`catch` which returns the input), `stringify` models
`JSON.stringify(packageJson, null, 2)`. -/
def updatePackageVersions (parse : String → Option Manifest) (stringify : Manifest → String)
    (packageJsonContent : String) (versionUpdates : List VersionInfo) : String :=
  match parse packageJsonContent with
  | none => packageJsonContent
  | some m =>
      let r := applyVersionUpdates m versionUpdates
      if r.2 then stringify r.1 else packageJsonContent

/-! ### Error classifier

`helpers/error-handling`: an `EnhancedError` couples a message, an
`ErrorContext` and `RecoveryInstructions`; the `handle*Error` functions
pattern-match lower-cased substrings of the raw error message.  String
literals are reproduced from the source except that apostrophes are
assembled via `apos` and emoji prefixes are dropped (presentation only). -/

/-- A single apostrophe (U+0027), used to assemble source strings that
contain one. -/
def apos : String := String.singleton (Char.ofNat 39)

/-- The source's `ErrorContext` from `helpers/error-handling`. -/
structure ErrorContext where
  operation : String
  projectPath : Option String
  command : Option String
  details : Option String
deriving DecidableEq

/-- The source's `RecoveryInstructions` from `helpers/error-handling`. -/
structure RecoveryInstructions where
  message : String
  steps : List String
  helpUrl : Option String
deriving DecidableEq

/-- The data of an `EnhancedError` (its class identity and stack are
irrelevant to the claims). -/
structure EnhancedErrorM where
  message : String
  context : ErrorContext
  recovery : RecoveryInstructions
deriving DecidableEq

/-- The source's `error.message.toLowerCase()`, character-level so that it evaluates in
the kernel (the messages involved are ASCII). -/
def toLowerStr (s : String) : String :=
  ⟨s.data.map Char.toLower⟩

/-- The source's `handleNetworkError(error, context)`. -/
def handleNetworkError (errMsg : String) (ctx : ErrorContext) : EnhancedErrorM :=
  let m := toLowerStr errMsg
  if strIncludes m "enotfound" || strIncludes m "network" then
    ⟨"Network connection failed",
     { ctx with details := some "Unable to reach npm registry or git repository" },
     ⟨"Network connectivity issues detected",
      ["Check your internet connection",
       "Try again in a few moments",
       "If using a corporate network, check proxy settings",
       "Consider using: pnpm config set registry https://registry.npmmirror.com",
       "Or create project with --no-install and install dependencies manually later"],
      some "https://docs.npmjs.com/troubleshooting/network-issues"⟩⟩
  else if strIncludes m "timeout" || strIncludes m "etimedout" then
    ⟨"Operation timed out",
     { ctx with details := some "Network request took too long to complete" },
     ⟨"Network timeout occurred",
      ["Try the operation again (it might be temporary)",
       "Check if you" ++ apos ++ "re behind a firewall or proxy",
       "Increase timeout with: pnpm config set network-timeout 300000",
       "Consider using a different npm registry if issues persist"],
      none⟩⟩
  else if strIncludes m "proxy" || strIncludes m "407" then
    ⟨"Proxy authentication failed",
     { ctx with details := some "Unable to authenticate with corporate proxy" },
     ⟨"Corporate proxy configuration needed",
      ["Contact your IT department for proxy settings",
       "Set proxy with: pnpm config set proxy http://proxy.company.com:8080",
       "Set https-proxy with: pnpm config set https-proxy http://proxy.company.com:8080",
       "Or create project with --no-install flag and configure proxy later"],
      none⟩⟩
  else
    ⟨"Network operation failed",
     { ctx with details := some errMsg },
     ⟨"Network issues detected",
      ["Check your internet connection",
       "Try again in a few moments",
       "If problem persists, create project with --no-install",
       "Then run " ++ apos ++ "pnpm install" ++ apos ++ " manually once network is stable"],
      none⟩⟩

/-- The source's `handlePackageManagerError(error, context)`. -/
def handlePackageManagerError (errMsg : String) (ctx : ErrorContext) : EnhancedErrorM :=
  let m := toLowerStr errMsg
  if strIncludes m "pnpm: command not found" ||
      strIncludes m (apos ++ "pnpm" ++ apos ++ " is not recognized") then
    ⟨"PNPM not installed",
     { ctx with details := some "PNPM package manager is required but not found" },
     ⟨"PNPM installation required",
      ["Install PNPM with: npm install -g pnpm",
       "Or using Corepack: corepack enable",
       "Verify installation with: pnpm --version",
       "Restart your terminal and try again"],
      some "https://pnpm.io/installation"⟩⟩
  else if strIncludes m "peer dep" || strIncludes m "peer dependency" then
    ⟨"Peer dependency conflicts",
     { ctx with details := some "Package dependency conflicts detected" },
     ⟨"Dependency resolution issues",
      ["This usually resolves automatically - the project should still work",
       "If issues persist, try: pnpm install --force",
       "Or clear cache and retry: pnpm store prune && pnpm install",
       "Check for version conflicts in package.json files"],
      none⟩⟩
  else if strIncludes m "network" || strIncludes m "fetch" then
    handleNetworkError errMsg ctx
  else
    ⟨"Package installation failed",
     { ctx with details := some errMsg },
     ⟨"Package manager error occurred",
      ["Try clearing package manager cache: pnpm store prune",
       "Delete node_modules and try again: rm -rf node_modules && pnpm install",
       "Check if you have sufficient disk space",
       "Try with --no-install flag and install dependencies manually"],
      none⟩⟩

/-! ### Pipeline orchestrator

`createProject` from `packages/create-fastify-project/src/create-project.ts`
with `performPreFlightChecks` / `validateProject`
(`workflows/validation.ts`), `installDependencies` (`workflows/install.ts`),
`setupDatabase` / `setupExternalDatabase` (`workflows/database.ts`) and
`initializeGit` (`workflows/git.ts`).

The outside world (filesystem state, subprocess exit statuses) is an
`Env` record of oracles; a run returns its terminal outcome together with
the ordered list of side-effecting events it performed.  Directory-creation
failure after a passed preflight (the `mkdirSync` catch) and the internal
failure handling of the copy/customize/version steps are not modelled:
no claim depends on them and they only run after the project directory has
been created.  `validateProject` checks three essential files and, with
Prisma, two database files; their joint presence is modelled by the two
booleans `essentialFilesPresent` / `prismaFilesPresent`. -/

/-- The source's `db` option domain. -/
inductive Db where
  | sqlite
  | postgres
  | mysql
deriving DecidableEq

/-- The source's `orm` option domain. -/
inductive Orm where
  | prisma
  | noOrm
deriving DecidableEq

/-- The source's `lint` option domain. -/
inductive Lint where
  | biome
  | eslint
deriving DecidableEq

/-- The source's `ProjectOptions` from `helpers/types`. -/
structure ProjectOptions where
  db : Db
  orm : Orm
  lint : Lint
  git : Bool
  install : Bool
deriving DecidableEq

/-- The world a pipeline run observes. -/
structure Env where
  projectPath : String
  targetExists : Bool
  parentWritable : Bool
  installExitOk : Bool
  installErrorMessage : String
  formatExitOk : Bool
  essentialFilesPresent : Bool
  prismaFilesPresent : Bool
deriving DecidableEq

/-- Side-effecting events of a run, in order. -/
inductive Event where
  | mkdirProject
  | copyTemplateStep
  | customizeStep
  | updateVersionsStep
  | subprocess (cmd : String)
  | displayPlan (e : EnhancedErrorM)
  | warnMsg (msg : String)
deriving DecidableEq

/-- Terminal outcomes: a thrown `Error` (caught by the CLI entry point,
which prints the bare message and exits non-zero), an
`EnhancedError.display()` followed by `process.exit(1)`, or the two
reports chosen by the final validation. -/
inductive Outcome where
  | abortedThrow (msg : String)
  | abortedExit (e : EnhancedErrorM)
  | finishedWithIssues
  | finishedSuccess
deriving DecidableEq

/-- The source's `performPreFlightChecks(projectPath, cliOptions)`: throw when the
target exists; option-domain validation never fires here because the
options are already well-typed; display-and-exit when the parent
directory is not writable.  Non-fatal health warnings do not affect
control flow. -/
def performPreFlightChecksRun (env : Env) : Option Outcome :=
  if env.targetExists then
    some (.abortedThrow ("Directory \"" ++ env.projectPath ++ "\" already exists"))
  else if !env.parentWritable then
    some (.abortedExit
      ⟨"Cannot write to target directory",
       ⟨"Pre-flight check", some env.projectPath, none, some ""⟩,
       ⟨"File system permission issues detected",
        ["Check if you have write permissions to the current directory",
         "Try running from a directory where you have write access",
         "On Unix systems, check permissions with: ls -la",
         "Ensure sufficient disk space is available"],
        none⟩⟩)
  else
    none

/-- The source's `installDependencies(projectPath, spinner)`: run `pnpm install`; on
success also attempt `pnpm format` (its failure only warns); on failure
display the classified package-manager recovery plan and return `false`. -/
def installDependenciesRun (env : Env) : Bool × List Event :=
  if env.installExitOk then
    (true,
     [.subprocess "pnpm install", .subprocess "pnpm format"] ++
       (if env.formatExitOk then []
        else [.warnMsg "Could not format generated code (this is usually not critical)"]))
  else
    (false,
     [.subprocess "pnpm install",
      .displayPlan (handlePackageManagerError env.installErrorMessage
        ⟨"Dependency installation", some env.projectPath, some "pnpm install", none⟩)])

/-- The subprocesses of `setupDatabase` (sqlite: copy env file, generate
client, push schema). -/
def setupDatabaseEvents : List Event :=
  [.subprocess "cp .env.example .env",
   .subprocess "pnpm prisma generate",
   .subprocess "pnpm prisma db push"]

/-- The subprocesses of `setupExternalDatabase` (postgres/mysql: copy env
file and generate the client only; no connection attempt). -/
def setupExternalDatabaseEvents : List Event :=
  [.subprocess "cp .env.example .env",
   .subprocess "pnpm prisma generate"]

/-- The subprocesses of `initializeGit` (failure is warn-and-continue and
does not affect the claims modelled here). -/
def gitInitEvents : List Event :=
  [.subprocess "git init",
   .subprocess "git add .",
   .subprocess "git commit -m Initial commit"]

/-- The source's `createProject(projectName, cliOptions)` as a state-machine run:
preflight, directory creation, copy, customize, version update, gated
install, gated database setup, gated git init, final validation choosing
between the success report and the manual-setup report. -/
def createProjectRun (env : Env) (opts : ProjectOptions) : Outcome × List Event :=
  match performPreFlightChecksRun env with
  | some o => (o, [])
  | none =>
      let baseEvents := [Event.mkdirProject, Event.copyTemplateStep,
                         Event.customizeStep, Event.updateVersionsStep]
      let inst := if opts.install then installDependenciesRun env else (false, [])
      let dependenciesInstalled := inst.1
      let dbEvents :=
        if opts.orm == Orm.prisma && dependenciesInstalled then
          if opts.db == Db.sqlite then setupDatabaseEvents else setupExternalDatabaseEvents
        else if opts.orm == Orm.prisma && !dependenciesInstalled then
          [Event.warnMsg "Skipping database setup because dependencies installation failed"]
        else []
      let gitEvents := if opts.git then gitInitEvents else []
      let hasErrors :=
        !env.essentialFilesPresent || (opts.orm == Orm.prisma && !env.prismaFilesPresent)
      ((if hasErrors then Outcome.finishedWithIssues else Outcome.finishedSuccess),
       baseEvents ++ inst.2 ++ dbEvents ++ gitEvents)

/-- Does an event invoke one of the database-setup subprocesses? -/
def isDbSetupEvent : Event → Bool
  | .subprocess cmd => strIncludes cmd "prisma"
  | _ => false

/-- The recovery plan carried by an abort outcome, if any: a thrown
`Error` carries none, only an `EnhancedError` abort carries one. -/
def reportedPlan : Outcome → Option RecoveryInstructions
  | .abortedExit e => some e.recovery
  | _ => none

/-- Does an event display a recovery plan one of whose steps contains the
manual install command `pnpm install`? -/
def planHasManualInstall : Event → Bool
  | .displayPlan e => e.recovery.steps.any fun s => strIncludes s "pnpm install"
  | _ => false

/-! ### Supporting lemmas -/

theorem mem_splitsOf {pr : List Char × List Char} {s : List Char} :
    pr ∈ splitsOf s ↔ pr.1 ++ pr.2 = s := by
  induction s generalizing pr with
  | nil =>
      constructor
      · intro h
        simp only [splitsOf, List.mem_singleton] at h
        subst h
        rfl
      · intro h
        rcases pr with ⟨a, b⟩
        rcases List.append_eq_nil.mp h with ⟨ha, hb⟩
        subst ha
        subst hb
        simp [splitsOf]
  | cons c cs ih =>
      constructor
      · intro h
        simp only [splitsOf, List.mem_cons, List.mem_map] at h
        rcases h with h | ⟨q, hq, hpr⟩
        · subst h
          rfl
        · subst hpr
          simpa using ih.mp hq
      · intro h
        rcases pr with ⟨a, b⟩
        cases a with
        | nil =>
            simp only [List.nil_append] at h
            subst h
            simp [splitsOf]
        | cons a0 as =>
            simp only [List.cons_append, List.cons.injEq] at h
            rcases h with ⟨rfl, h2⟩
            simp only [splitsOf, List.mem_cons, List.mem_map]
            exact Or.inr ⟨(as, b), ih.mpr h2, rfl⟩

theorem matchHere_append {ts : List RTok} {s b : List Char}
    (h : matchHere ts s = true) : matchHere ts (s ++ b) = true := by
  induction ts generalizing s with
  | nil => simp [matchHere]
  | cons t ts ih =>
      cases t with
      | anyChar =>
          cases s with
          | nil => simp [matchHere] at h
          | cons c cs => simpa [matchHere] using ih (by simpa [matchHere] using h)
      | lit a =>
          cases s with
          | nil => simp [matchHere] at h
          | cons c cs =>
              simp only [matchHere, Bool.and_eq_true] at h ⊢
              exact ⟨h.1, ih h.2⟩
      | anyStar =>
          simp only [matchHere, List.any_eq_true] at h ⊢
          rcases h with ⟨pr, hmem, hm⟩
          exact ⟨(pr.1, pr.2 ++ b),
            mem_splitsOf.mpr (by rw [← List.append_assoc, mem_splitsOf.mp hmem]),
            ih hm⟩
      | nonSlashStar =>
          simp only [matchHere, List.any_eq_true, Bool.and_eq_true] at h ⊢
          rcases h with ⟨pr, hmem, hall, hm⟩
          exact ⟨(pr.1, pr.2 ++ b),
            mem_splitsOf.mpr (by rw [← List.append_assoc, mem_splitsOf.mp hmem]),
            hall, ih hm⟩

theorem rtest_of_matchHere {ts : List RTok} {s : List Char}
    (h : matchHere ts s = true) : rtest ts s = true := by
  cases s with
  | nil => simpa [rtest] using h
  | cons c cs => simp [rtest, h]

theorem rtest_append_right {ts : List RTok} {s : List Char}
    (h : rtest ts s = true) (b : List Char) : rtest ts (s ++ b) = true := by
  induction s with
  | nil =>
      simp only [rtest] at h
      exact rtest_of_matchHere (by simpa using matchHere_append (b := b) h)
  | cons c cs ih =>
      simp only [rtest, Bool.or_eq_true] at h
      rcases h with h | h
      · exact rtest_of_matchHere (matchHere_append h)
      · simp [rtest, ih h]

theorem rtest_append_left {ts : List RTok} {s : List Char}
    (h : rtest ts s = true) (a : List Char) : rtest ts (a ++ s) = true := by
  induction a with
  | nil => simpa using h
  | cons c cs ih => simp [rtest, ih]

theorem findName_copyEntries (patterns : List String) (bp : Option String) (fs : Fs) (p : String) :
    findName (copyEntries patterns bp fs) p =
      if shouldExclude patterns p (some (relPathOf bp p)) then none
      else
        match findName fs p with
        | none => none
        | some (.fileV c) => some (.fileV c)
        | some (.dirV ch) => some (.dirV (copyEntries patterns (some (relPathOf bp p)) ch)) := by
  induction fs with
  | nilF =>
      simp only [copyEntries, findName]
      split <;> rfl
  | fileE n c rest ih =>
      by_cases hnp : n = p
      · subst hnp
        cases hex : shouldExclude patterns n (some (relPathOf bp n)) with
        | true => simp [copyEntries, hex, ih]
        | false => simp [copyEntries, findName, hex]
      · cases hex : shouldExclude patterns n (some (relPathOf bp n)) with
        | true => simp [copyEntries, hex, ih, findName, hnp]
        | false => simp [copyEntries, findName, hex, hnp, ih]
  | dirE n ch rest ihch ih =>
      by_cases hnp : n = p
      · subst hnp
        cases hex : shouldExclude patterns n (some (relPathOf bp n)) with
        | true => simp [copyEntries, hex, ih]
        | false => simp [copyEntries, findName, hex]
      · cases hex : shouldExclude patterns n (some (relPathOf bp n)) with
        | true => simp [copyEntries, hex, ih, findName, hnp]
        | false => simp [copyEntries, findName, hex, hnp, ih]

theorem lookup_copy_unexcluded (patterns : List String) :
    ∀ (path : List String) (bp : Option String) (fs : Fs) (name : String) (v : FsEnt),
      lookupPath (copyEntries patterns bp fs) (path ++ [name]) = some v →
      shouldExclude patterns name (some (joinFrom bp (path ++ [name]))) = false := by
  intro path
  induction path with
  | nil =>
      intro bp fs name v h
      simp only [List.nil_append] at h
      cases hex : shouldExclude patterns name (some (relPathOf bp name)) with
      | false => simpa [joinFrom] using hex
      | true =>
          rw [lookupPath, findName_copyEntries, if_pos hex] at h
          exact absurd h (by simp)
  | cons p path ih =>
      intro bp fs name v h
      simp only [List.cons_append] at h
      cases hex : shouldExclude patterns p (some (relPathOf bp p)) with
      | true =>
          rw [lookupPath, findName_copyEntries, if_pos hex] at h
          exact absurd h (by simp)
      | false =>
          rw [lookupPath, findName_copyEntries, if_neg (by simp [hex])] at h
          cases hf : findName fs p with
          | none => rw [hf] at h; exact absurd h (by simp)
          | some ent =>
              cases ent with
              | fileV c0 =>
                  rw [hf] at h
                  have : (path ++ [name]).isEmpty = false := by
                    cases path <;> simp
                  rw [this] at h
                  exact absurd h (by simp)
              | dirV ch =>
                  rw [hf] at h
                  have hne : (path ++ [name]).isEmpty = false := by
                    cases path <;> simp
                  rw [hne] at h
                  simp only [List.cons_append, joinFrom]
                  exact ih (some (relPathOf bp p)) ch name v h

theorem lookup_copy_preserved (patterns : List String) :
    ∀ (path : List String) (bp : Option String) (fs : Fs) (c : String),
      pathUnexcluded patterns bp path = true →
      lookupPath fs path = some (.fileV c) →
      lookupPath (copyEntries patterns bp fs) path = some (.fileV c) := by
  intro path
  induction path with
  | nil =>
      intro bp fs c _ h
      simp [lookupPath] at h
  | cons p rest ih =>
      intro bp fs c hun h
      simp only [pathUnexcluded, Bool.and_eq_true, Bool.not_eq_true'] at hun
      obtain ⟨hex, hun'⟩ := hun
      cases hf : findName fs p with
      | none =>
          rw [lookupPath, hf] at h
          exact absurd h (by simp)
      | some ent =>
          cases ent with
          | fileV c0 =>
              rw [lookupPath, hf] at h
              cases rest with
              | nil =>
                  simp only [List.isEmpty_nil, if_true] at h
                  rw [lookupPath, findName_copyEntries, if_neg (by simp [hex]), hf]
                  simpa using h
              | cons r rs =>
                  simp only [List.isEmpty_cons, if_false] at h
                  exact absurd h (by simp)
          | dirV ch =>
              rw [lookupPath, hf] at h
              cases rest with
              | nil =>
                  simp only [List.isEmpty_nil, if_true] at h
                  exact absurd h (by simp)
              | cons r rs =>
                  simp only [List.isEmpty_cons, if_false] at h
                  rw [lookupPath, findName_copyEntries, if_neg (by simp [hex]), hf]
                  simp only [List.isEmpty_cons, if_false]
                  exact ih (some (relPathOf bp p)) ch c hun' h

theorem getDep_setDep {l : List (String × String)} {k v0 val : String}
    (h : getDep l k = some v0) : getDep (setDep l k val) k = some val := by
  induction l with
  | nil => simp [getDep] at h
  | cons kv rest ih =>
      rcases kv with ⟨k1, v1⟩
      cases hkk : (k1 == k) with
      | true => simp [getDep, setDep, hkk]
      | false =>
          simp only [getDep, setDep, hkk, Bool.false_eq_true, if_false] at h ⊢
          exact ih h

theorem applyVersionUpdates_skip {m : Manifest} {updates : List VersionInfo}
    (h : ∀ u ∈ updates, u.updated = false ∨
        (getDep m.dependencies u.name = none ∧ getDep m.devDependencies u.name = none)) :
    applyVersionUpdates m updates = (m, false) := by
  show List.foldl updateStep (m, false) updates = (m, false)
  induction updates with
  | nil => rfl
  | cons u rest ih =>
      have hstep : updateStep (m, false) u = (m, false) := by
        rcases h u (by simp) with hu | ⟨h1, h2⟩
        · simp [updateStep, hu]
        · cases hup : u.updated with
          | false => simp [updateStep, hup]
          | true => simp [updateStep, hup, h1, h2]
      rw [List.foldl_cons, hstep]
      exact ih fun x hx => h x (by simp [hx])

theorem run_dbSetup_gate (env : Env) (opts : ProjectOptions)
    (ht : env.targetExists = false) (hw : env.parentWritable = true) :
    (createProjectRun env opts).2.any isDbSetupEvent =
      (opts.orm == Orm.prisma && (opts.install && env.installExitOk)) := by
  cases hi : opts.install <;> cases hx : env.installExitOk <;> cases hf : env.formatExitOk <;>
    cases ho : opts.orm <;> cases hd : opts.db <;> cases hg : opts.git <;>
      simp [createProjectRun, performPreFlightChecksRun, ht, hw, hi, hx, hf, ho, hd, hg,
            installDependenciesRun, setupDatabaseEvents, setupExternalDatabaseEvents,
            gitInitEvents, isDbSetupEvent] <;>
      decide

/-! ### Claims -/

/-- Claim C1, counterexample: with the target path already existing, the run
aborts via the thrown plain `Error` and performs no filesystem events — but
the abort carries no FilesystemError-classified recovery plan, contrary to
the claim's last clause. -/
theorem c1_preflight_plain_error_counterexample :
    createProjectRun ⟨"/home/user/demo-app", true, true, true, "", true, true, true⟩
        ⟨Db.sqlite, Orm.prisma, Lint.biome, true, true⟩ =
      (Outcome.abortedThrow "Directory \"/home/user/demo-app\" already exists", []) ∧
    reportedPlan (createProjectRun ⟨"/home/user/demo-app", true, true, true, "", true, true, true⟩
        ⟨Db.sqlite, Orm.prisma, Lint.biome, true, true⟩).1 = none := by
  decide

/-- Claim C1 (amended): for every invocation whose target path already
exists, the run aborts during preflight before the project directory is
created — no filesystem or subprocess event is performed — and the abort is
reported with the bare thrown error message
`Directory "<path>" already exists`, with no classified recovery plan. -/
theorem c1_preflight_abort_amended (env : Env) (opts : ProjectOptions)
    (h : env.targetExists = true) :
    createProjectRun env opts =
      (Outcome.abortedThrow ("Directory \"" ++ env.projectPath ++ "\" already exists"), []) ∧
    reportedPlan (createProjectRun env opts).1 = none := by
  constructor <;> simp [createProjectRun, performPreFlightChecksRun, h, reportedPlan]

theorem c1_preflight_abort_amended_witness :
    createProjectRun ⟨"demo-app", true, false, false, "", false, false, false⟩
        ⟨Db.postgres, Orm.noOrm, Lint.eslint, false, false⟩ =
      (Outcome.abortedThrow ("Directory \"" ++ "demo-app" ++ "\" already exists"), []) ∧
    reportedPlan (createProjectRun ⟨"demo-app", true, false, false, "", false, false, false⟩
        ⟨Db.postgres, Orm.noOrm, Lint.eslint, false, false⟩).1 = none :=
  c1_preflight_abort_amended _ _ rfl

/-- Claim C2, counterexample: the installation subprocess exits non-zero in
a run whose required output files all exist; database setup is indeed
skipped, but the final report is the success report — not PartialFailure —
because the final validation only checks file existence. -/
theorem c2_install_failure_report_counterexample :
    ((createProjectRun
        ⟨"demo-app", false, true, false, "Command failed with exit code 1: pnpm install",
         true, true, true⟩
        ⟨Db.sqlite, Orm.prisma, Lint.biome, false, true⟩).2.any isDbSetupEvent = false) ∧
    (createProjectRun
        ⟨"demo-app", false, true, false, "Command failed with exit code 1: pnpm install",
         true, true, true⟩
        ⟨Db.sqlite, Orm.prisma, Lint.biome, false, true⟩).1 = Outcome.finishedSuccess := by
  decide

/-- Claim C2 (amended): the database-setup subprocesses run only when
`orm = prisma`, installation was requested and its subprocess succeeded.
When installation exits non-zero, database setup is skipped entirely; a
PackageManagerError-classified recovery plan is displayed at the install
step, whose steps include a manual `pnpm install` command whenever the
error message classifies to the generic installation-failure branch; and
the final report is the success report as long as the validated files
exist (the claim's PartialFailure clause does not hold). -/
theorem c2_database_gating_amended (env : Env) (opts : ProjectOptions) :
    ((createProjectRun env opts).2.any isDbSetupEvent = true →
      opts.orm = Orm.prisma ∧ opts.install = true ∧ env.installExitOk = true) ∧
    (env.targetExists = false → env.parentWritable = true →
     opts.install = true → env.installExitOk = false →
     ((createProjectRun env opts).2.any isDbSetupEvent = false ∧
      (strIncludes (toLowerStr env.installErrorMessage) "pnpm: command not found" = false →
       strIncludes (toLowerStr env.installErrorMessage)
         (apos ++ "pnpm" ++ apos ++ " is not recognized") = false →
       strIncludes (toLowerStr env.installErrorMessage) "peer dep" = false →
       strIncludes (toLowerStr env.installErrorMessage) "peer dependency" = false →
       strIncludes (toLowerStr env.installErrorMessage) "network" = false →
       strIncludes (toLowerStr env.installErrorMessage) "fetch" = false →
       (createProjectRun env opts).2.any planHasManualInstall = true) ∧
      (env.essentialFilesPresent = true →
       (opts.orm = Orm.prisma → env.prismaFilesPresent = true) →
       (createProjectRun env opts).1 = Outcome.finishedSuccess))) := by
  constructor
  · intro hdb
    cases ht : env.targetExists with
    | true => simp [createProjectRun, performPreFlightChecksRun, ht] at hdb
    | false =>
        cases hw : env.parentWritable with
        | false => simp [createProjectRun, performPreFlightChecksRun, ht, hw] at hdb
        | true =>
            rw [run_dbSetup_gate env opts ht hw] at hdb
            simp only [Bool.and_eq_true, beq_iff_eq] at hdb
            exact ⟨hdb.1, hdb.2.1, hdb.2.2⟩
  · intro ht hw hi hx
    refine ⟨?_, ?_, ?_⟩
    · rw [run_dbSetup_gate env opts ht hw, hi, hx]
      simp
    · intro h1 h2 h3 h4 h5 h6
      have hplan : planHasManualInstall
          (Event.displayPlan (handlePackageManagerError env.installErrorMessage
            ⟨"Dependency installation", some env.projectPath, some "pnpm install", none⟩)) =
            true := by
        simp only [handlePackageManagerError, h1, h2, h3, h4, h5, h6, Bool.or_self,
          Bool.false_eq_true, if_false, planHasManualInstall]
        decide
      have hmem : Event.displayPlan (handlePackageManagerError env.installErrorMessage
          ⟨"Dependency installation", some env.projectPath, some "pnpm install", none⟩) ∈
            (createProjectRun env opts).2 := by
        cases ho : opts.orm <;> cases hg : opts.git <;>
          simp [createProjectRun, performPreFlightChecksRun, ht, hw, hi, hx, ho, hg,
                installDependenciesRun, gitInitEvents]
      exact List.any_eq_true.mpr ⟨_, hmem, hplan⟩
    · intro he hp
      cases ho : opts.orm with
      | prisma =>
          have hpf := hp ho
          simp [createProjectRun, performPreFlightChecksRun, ht, hw, ho, he, hpf]
      | noOrm =>
          simp [createProjectRun, performPreFlightChecksRun, ht, hw, ho, he]

theorem c2_database_gating_amended_witness :
    ((createProjectRun
        ⟨"demo-app", false, true, false, "Command failed with exit code 1: pnpm install",
         true, true, true⟩
        ⟨Db.postgres, Orm.prisma, Lint.eslint, true, true⟩).2.any isDbSetupEvent = false) ∧
    ((createProjectRun
        ⟨"demo-app", false, true, false, "Command failed with exit code 1: pnpm install",
         true, true, true⟩
        ⟨Db.postgres, Orm.prisma, Lint.eslint, true, true⟩).2.any planHasManualInstall = true) ∧
    ((createProjectRun
        ⟨"demo-app", false, true, false, "Command failed with exit code 1: pnpm install",
         true, true, true⟩
        ⟨Db.postgres, Orm.prisma, Lint.eslint, true, true⟩).1 = Outcome.finishedSuccess) := by
  have h := (c2_database_gating_amended
      ⟨"demo-app", false, true, false, "Command failed with exit code 1: pnpm install",
       true, true, true⟩
      ⟨Db.postgres, Orm.prisma, Lint.eslint, true, true⟩).2 rfl rfl rfl rfl
  exact ⟨h.1,
    h.2.1 (by decide) (by decide) (by decide) (by decide) (by decide) (by decide),
    h.2.2 rfl (fun _ => rfl)⟩

/-- Claim C3, counterexample: with pattern set `["node_modules"]`, the
source file `node_modules/foo.txt` matches no pattern (neither its bare
name nor its relative path does), yet it does not appear in the
materialized output, because its parent directory was skipped together
with its whole subtree. -/
theorem c3_materialize_counterexample :
    shouldExclude ["node_modules"] "foo.txt" (some "node_modules/foo.txt") = false ∧
    lookupPath (.dirE "node_modules" (.fileE "foo.txt" "hello" .nilF) .nilF)
      ["node_modules", "foo.txt"] = some (.fileV "hello") ∧
    lookupPath (copyEntries ["node_modules"] none
        (.dirE "node_modules" (.fileE "foo.txt" "hello" .nilF) .nilF))
      ["node_modules", "foo.txt"] = none := by
  decide

/-- Claim C3 (amended): for every exclusion pattern set and source tree,
(1) every file or directory reachable in the materialized output is
unexcluded at its own relative path, and (2) every source file all of
whose path segments are unexcluded (the file itself and all its ancestor
directories) appears in the output with contents identical to the source.
A file lying under an excluded directory is omitted even when it matches
no pattern itself. -/
theorem c3_materialize_amended (patterns : List String) (fs : Fs) :
    (∀ (path : List String) (name : String) (v : FsEnt),
      lookupPath (copyEntries patterns none fs) (path ++ [name]) = some v →
      shouldExclude patterns name (some (joinFrom none (path ++ [name]))) = false) ∧
    (∀ (path : List String) (c : String),
      pathUnexcluded patterns none path = true →
      lookupPath fs path = some (.fileV c) →
      lookupPath (copyEntries patterns none fs) path = some (.fileV c)) :=
  ⟨fun path name v h => lookup_copy_unexcluded patterns path none fs name v h,
   fun path c hun h => lookup_copy_preserved patterns path none fs c hun h⟩

theorem c3_materialize_amended_witness :
    shouldExclude ["node_modules"] "src"
      (some (joinFrom none ([] ++ ["src"]))) = false ∧
    lookupPath (copyEntries ["node_modules"] none
        (.dirE "src" (.fileE "main.ts" "code" .nilF)
          (.dirE "node_modules" (.fileE "foo.txt" "x" .nilF) .nilF)))
      ["src", "main.ts"] = some (.fileV "code") := by
  have h := c3_materialize_amended ["node_modules"]
    (.dirE "src" (.fileE "main.ts" "code" .nilF)
      (.dirE "node_modules" (.fileE "foo.txt" "x" .nilF) .nilF))
  exact ⟨h.1 [] "src" (.dirV (.fileE "main.ts" "code" .nilF)) (by decide),
         h.2 ["src", "main.ts"] "code" (by decide) (by decide)⟩

/-- Claim C4, counterexample: the pattern `a/**/b` contains `**`; under the
claimed semantics (`**` matches any sequence of path segments) it matches
the relative path `a/x/y/b`, but the code's matcher rejects it — the
double replacement compiles `**` to `.[^/]*`, which cannot cross the
second path separator. -/
theorem c4_nested_glob_counterexample :
    patternExcludes "a/**/b" "b" (some "a/x/y/b") = false ∧
    shouldExclude ["a/**/b"] "b" (some "a/x/y/b") = false ∧
    specNestedMatch "a/**/b" "a/x/y/b" = true := by
  decide

/-- Claim C4 (amended): a `**` pattern never matches when the relative path
is absent (fail open toward inclusion); when the relative path is present
the pattern is compiled by replacing every `**` with `.*` and then every
`*` — including the one just introduced — with `[^/]*`, and the resulting
regex is tested unanchored against the relative path, so `**` effectively
matches one arbitrary character followed by a run of non-separator
characters rather than an arbitrary segment sequence.  In particular
`**/Dockerfile` excludes `<prefix>/Dockerfile` for every non-empty prefix
but not a top-level `Dockerfile`. -/
theorem c4_nested_glob_amended (p filename : String) (h : hasDoubleStar p.data = true) :
    (∀ n : String, patternExcludes p n none = false) ∧
    (∀ fp : String, patternExcludes p filename (some fp) =
      rtest (compileNested p.data) fp.data) ∧
    (∀ pre : String, pre ≠ "" →
      patternExcludes "**/Dockerfile" filename (some (pre ++ "/Dockerfile")) = true) ∧
    patternExcludes "**/Dockerfile" filename (some "Dockerfile") = false := by
  have hd : hasDoubleStar ("**/Dockerfile").data = true := by decide
  refine ⟨fun n => by simp [patternExcludes, h], fun fp => by simp [patternExcludes, h], ?_,
    by simp only [patternExcludes, hd, if_true]; decide⟩
  intro pre hpre
  simp only [patternExcludes, hd, if_true]
  rcases List.eq_nil_or_concat pre.data with hnil | ⟨l, ch, hl⟩
  · exact absurd (String.ext (by simp [hnil])) hpre
  · have hdata : (pre ++ "/Dockerfile").data = l ++ (ch :: ("/Dockerfile").data) := by
      have hsplit : (pre ++ "/Dockerfile").data = pre.data ++ ("/Dockerfile").data := rfl
      rw [hsplit, hl]
      simp [List.concat_eq_append, List.append_assoc]
    rw [hdata]
    refine rtest_append_left ?_ l
    refine rtest_of_matchHere ?_
    show matchHere (compileNested ("**/Dockerfile").data) (ch :: ("/Dockerfile").data) = true
    have hcomp : compileNested ("**/Dockerfile").data =
        RTok.anyChar :: RTok.nonSlashStar :: (("/Dockerfile").data.map RTok.lit) := by decide
    rw [hcomp]
    simp only [matchHere]
    decide

theorem c4_nested_glob_amended_witness :
    patternExcludes "**/.dockerignore" "y" none = false ∧
    patternExcludes "**/Dockerfile" "x" (some ("apps/api" ++ "/Dockerfile")) = true ∧
    patternExcludes "**/Dockerfile" "x" (some "Dockerfile") = false := by
  have h := c4_nested_glob_amended "**/.dockerignore" "x" (by decide)
  exact ⟨h.1 "y", h.2.2.1 "apps/api" (by decide), h.2.2.2⟩

/-- Claim C5, counterexample: the single-`*` branch builds its regex with
no anchors and `RegExp.test` searches anywhere in the name, so `*.log`
excludes `app.log.txt` — a name that merely contains `.log` — while the
claimed both-ends-anchored matcher rejects that name. -/
theorem c5_star_anchoring_counterexample :
    shouldExcludeBare ["*.log"] "app.log.txt" = true ∧
    patternExcludes "*.log" "app.log.txt" none = true ∧
    matchExact (compileSingle ("*.log").data) ("app.log.txt").data = false := by
  decide

/-- Claim C5 (amended): for a pattern containing `*` but not `**`, both
implementations decide the match by testing the regex obtained by
replacing each `*` with `.*` — unanchored, as a substring search — against
the bare entry name; consequently a matching name still matches after
prepending or appending arbitrary characters, which a both-ends-anchored
matcher would not allow. -/
theorem c5_star_unanchored_amended (p n : String) (hstar : p.data.contains '*' = true)
    (hnd : hasDoubleStar p.data = false) :
    (∀ fp : Option String, patternExcludes p n fp = rtest (compileSingle p.data) n.data) ∧
    shouldExcludeBare [p] n = rtest (compileSingle p.data) n.data ∧
    (∀ a b : String, rtest (compileSingle p.data) n.data = true →
      rtest (compileSingle p.data) ((a ++ n ++ b)).data = true) := by
  have hmem : '*' ∈ p.data := by simpa using hstar
  refine ⟨fun fp => by simp [patternExcludes, hnd, hmem],
    by simp [shouldExcludeBare, hmem], ?_⟩
  intro a b hm
  have hdata : ((a ++ n ++ b)).data = a.data ++ (n.data ++ b.data) := by
    show (a ++ n ++ b).data = a.data ++ (n.data ++ b.data)
    rw [← List.append_assoc]
    rfl
  rw [hdata]
  exact rtest_append_left (rtest_append_right hm b.data) a.data

theorem c5_star_unanchored_amended_witness :
    shouldExcludeBare ["*.db"] "dev.db" = rtest (compileSingle ("*.db").data) ("dev.db").data ∧
    rtest (compileSingle ("*.db").data) (("my" ++ "dev.db" ++ "-journal")).data = true := by
  have h := c5_star_unanchored_amended "*.db" "dev.db" (by decide) (by decide)
  exact ⟨h.2.1, h.2.2 "my" "-journal" (by decide)⟩

/-- Claim C6 (code bug), evaluation at the failing input: `processFile`
applies the project-name replacement first, and the project-name token is
a substring of the repo-URL token, so an occurrence of the repo-URL token
is mangled into `https://github.com/jarodtaylor/<projectName>` before the
repo-URL rule — which `generateReplacements` itself maps to the generic
`yourusername` placeholder — can ever match.  The template author's GitHub
username therefore survives customization. -/
theorem c6_repo_url_token_bug :
    processFileContent "demo-app" TEMPLATE_REPO_URL =
      "https://github.com/jarodtaylor/demo-app" ∧
    strIncludes (processFileContent "demo-app" TEMPLATE_REPO_URL) "jarodtaylor" = true ∧
    processFileContent "demo-app" TEMPLATE_REPO_URL ≠
      "https://github.com/yourusername/demo-app" ∧
    (TEMPLATE_REPO_URL, "https://github.com/yourusername/" ++ "demo-app") ∈
      generateReplacements "demo-app" := by
  refine ⟨by decide, by decide, by decide, ?_⟩
  simp [generateReplacements]

/-- Claim C7, counterexample: for a constrained package whose registry
lookup returns a version older than the current one but in the same major
line, the resolver still reports `updated = true` — no newer-than
comparison is performed, only inequality. -/
theorem c7_updated_newer_counterexample :
    (resolveOne (some "5.0.0") (fun q => if q = "fastify" then some "5.1.0" else none)
      "fastify").updated = true ∧
    semverNewer "5.0.0" "5.1.0" = false := by
  decide

/-- Claim C7 (amended): `updated` is true exactly when the registry lookup
returned a version that satisfies the registered major-version constraint
(when one exists) and differs from the current value; whether it is newer
than the current value is never checked. -/
theorem c7_updated_characterization_amended (fetched : Option String)
    (currentVersions : String → Option String) (packageName : String) :
    (resolveOne fetched currentVersions packageName).updated = true ↔
      ∃ v, fetched = some v ∧
        (∀ c, VERSION_CONSTRAINTS.lookup packageName = some c →
          satisfiesConstraint v c = true) ∧
        v ≠ (currentVersions packageName).getD "unknown" := by
  cases fetched with
  | none => simp [resolveOne]
  | some v =>
      cases hc : VERSION_CONSTRAINTS.lookup packageName with
      | none => simp [resolveOne, hc, bne_iff_ne]
      | some c =>
          cases hs : satisfiesConstraint v c with
          | true => simp [resolveOne, hc, hs, bne_iff_ne]
          | false => simp [resolveOne, hc, hs]

/-- Claim C8, counterexample: an entry whose existing version string has no
range prefix is rewritten with a `^` prefix (`|| "^"` default), not with
the bare new version the claim requires. -/
theorem c8_bare_version_caret_counterexample :
    getDep (applyVersionUpdates ⟨[("foo", "1.0.0")], []⟩
        [⟨"foo", "1.0.0", "2.0.0", true⟩]).1.dependencies "foo" = some "^2.0.0" ∧
    ("^2.0.0" : String) ≠ "2.0.0" := by
  decide

/-- Claim C8 (amended): for an `updated` result whose package appears in a
dependency table with a non-empty version string `v`, the rewritten string
is the new version preceded by `^` if `v` started with `^`, by `~` if it
started with `~`, and by the default `^` — not by nothing — if `v` had no
range prefix. -/
theorem c8_range_char_amended (deps devDeps : List (String × String))
    (name current latest : String) :
    (∀ v, getDep deps name = some v → v ≠ "" →
      getDep (applyVersionUpdates ⟨deps, devDeps⟩
          [⟨name, current, latest, true⟩]).1.dependencies name =
        some (rangeCharOf v ++ latest)) ∧
    (∀ v, getDep devDeps name = some v → v ≠ "" →
      getDep (applyVersionUpdates ⟨deps, devDeps⟩
          [⟨name, current, latest, true⟩]).1.devDependencies name =
        some (rangeCharOf v ++ latest)) := by
  constructor
  · intro v hv hne
    have hb : (v == "") = false := beq_eq_false_iff_ne.mpr hne
    simp only [applyVersionUpdates, List.foldl_cons, List.foldl_nil, updateStep,
      Bool.not_true, Bool.false_eq_true, if_false, hv, hb]
    exact getDep_setDep hv
  · intro v hv hne
    have hb : (v == "") = false := beq_eq_false_iff_ne.mpr hne
    simp only [applyVersionUpdates, List.foldl_cons, List.foldl_nil, updateStep,
      Bool.not_true, Bool.false_eq_true, if_false, hv, hb]
    exact getDep_setDep hv

theorem c8_range_char_amended_witness :
    getDep (applyVersionUpdates ⟨[("foo", "~1.0.0")], [("foo", "1.2.3")]⟩
        [⟨"foo", "1.0.0", "2.0.0", true⟩]).1.dependencies "foo" =
      some (rangeCharOf "~1.0.0" ++ "2.0.0") ∧
    getDep (applyVersionUpdates ⟨[("foo", "~1.0.0")], [("foo", "1.2.3")]⟩
        [⟨"foo", "1.0.0", "2.0.0", true⟩]).1.devDependencies "foo" =
      some (rangeCharOf "1.2.3" ++ "2.0.0") := by
  have h := c8_range_char_amended [("foo", "~1.0.0")] [("foo", "1.2.3")] "foo" "1.0.0" "2.0.0"
  exact ⟨h.1 "~1.0.0" (by decide) (by decide), h.2 "1.2.3" (by decide) (by decide)⟩

/-- The `name` field of a resolved result is the package it was resolved
for, whatever the lookup returned. -/
theorem resolveOne_name (fetched : Option String)
    (currentVersions : String → Option String) (packageName : String) :
    (resolveOne fetched currentVersions packageName).name = packageName := by
  cases fetched <;> rfl

/-- Claim C9 (confirmed): a failed registry lookup (timeout, non-2xx
response, network error — all mapped to `null` by `fetchPackageVersion`)
yields a result with `updated = false` and `latest` equal to `current` for
that package, and leaves every other package's result in the batch exactly
as it would be under any registry behaviour that agrees outside the
failing package. -/
theorem c9_batch_isolation (registry registry2 : String → Option String)
    (currentVersions : String → Option String) (packages : List String) (p : String)
    (hfail : registry p = none)
    (hagree : ∀ q, q ≠ p → registry2 q = registry q) :
    (∀ r ∈ fetchLatestVersions registry packages currentVersions,
      r.name = p → r.updated = false ∧ r.latest = r.current) ∧
    (fetchLatestVersions registry2 packages currentVersions).map
        (fun r => if r.name = p then none else some r) =
      (fetchLatestVersions registry packages currentVersions).map
        (fun r => if r.name = p then none else some r) := by
  constructor
  · intro r hr hname
    rcases List.mem_map.mp hr with ⟨q, hq, hres⟩
    have hqp : q = p := by
      rw [← hres, resolveOne_name] at hname
      exact hname
    subst hqp
    rw [← hres, hfail]
    exact ⟨rfl, rfl⟩
  · induction packages with
    | nil => rfl
    | cons q rest ih =>
        simp only [fetchLatestVersions, List.map_cons, List.map_map] at ih ⊢
        by_cases hqp : q = p
        · subst hqp
          simp [Function.comp, resolveOne_name, ih]
        · simp [Function.comp, hagree q hqp, ih]

theorem c9_batch_isolation_witness :
    (∀ r ∈ fetchLatestVersions (fun q => if q = "fastify" then some "5.5.0" else none)
        ["typescript", "fastify"] (fun _ => some "1.0.0"),
      r.name = "typescript" → r.updated = false ∧ r.latest = r.current) ∧
    (fetchLatestVersions (fun q => if q = "fastify" then some "5.5.0"
        else if q = "typescript" then some "9.9.9" else none)
        ["typescript", "fastify"] (fun _ => some "1.0.0")).map
        (fun r => if r.name = "typescript" then none else some r) =
      (fetchLatestVersions (fun q => if q = "fastify" then some "5.5.0" else none)
        ["typescript", "fastify"] (fun _ => some "1.0.0")).map
        (fun r => if r.name = "typescript" then none else some r) :=
  c9_batch_isolation _ _ _ _ _ (by decide)
    (by
      intro q hq
      by_cases hf : q = "fastify"
      · simp [hf]
      · simp [hf, hq])

/-- Claim C10 (confirmed): `updatePackageVersions` is a total function of
its inputs (the source wraps everything in `try`/`catch`, so it never
throws), and it returns the input string completely unchanged when the
input fails to parse, when no result is marked `updated`, or when no
updated package occurs among the parsed manifest's dependencies or
devDependencies. -/
theorem c10_update_unchanged (parse : String → Option Manifest) (stringify : Manifest → String)
    (content : String) (versionUpdates : List VersionInfo) :
    (parse content = none →
      updatePackageVersions parse stringify content versionUpdates = content) ∧
    ((∀ u ∈ versionUpdates, u.updated = false) →
      updatePackageVersions parse stringify content versionUpdates = content) ∧
    (∀ m, parse content = some m →
      (∀ u ∈ versionUpdates, u.updated = true →
        getDep m.dependencies u.name = none ∧ getDep m.devDependencies u.name = none) →
      updatePackageVersions parse stringify content versionUpdates = content) := by
  refine ⟨?_, ?_, ?_⟩
  · intro h
    simp [updatePackageVersions, h]
  · intro h
    cases hp : parse content with
    | none => simp [updatePackageVersions, hp]
    | some m =>
        have hskip := applyVersionUpdates_skip (m := m) (fun u hu => Or.inl (h u hu))
        simp [updatePackageVersions, hp, hskip]
  · intro m hp h
    have hskip := applyVersionUpdates_skip (m := m) (fun u hu => by
      by_cases hu2 : u.updated = true
      · exact Or.inr (h u hu hu2)
      · exact Or.inl (by simpa using hu2))
    simp [updatePackageVersions, hp, hskip]

theorem c10_update_unchanged_witness :
    updatePackageVersions (fun _ => none) (fun _ => "") "not json" [] = "not json" :=
  (c10_update_unchanged (fun _ => none) (fun _ => "") "not json" []).1 rfl

theorem c7_updated_characterization_amended_witness :
    (resolveOne (some "7.1.0") (fun _ => some "7.0.0") "react-router").updated = true ↔
      ∃ v, (some "7.1.0" : Option String) = some v ∧
        (∀ c, VERSION_CONSTRAINTS.lookup "react-router" = some c →
          satisfiesConstraint v c = true) ∧
        v ≠ ((fun _ : String => some "7.0.0") "react-router").getD "unknown" :=
  c7_updated_characterization_amended (some "7.1.0") (fun _ => some "7.0.0") "react-router"
